import Mathlib

/-
  Verification development for the `image_utils` repository
  (drawing_utils.go, composite_image.go).

  Shallow embedding conventions:
  * Go `int` is modelled by `ℤ`, Go `uint32` channel magnitudes by `ℕ`.
  * Go `float64`/`float32` arithmetic is modelled by exact fractions
    (`Float64` below; respectively exact integers for the squared
    distances in the jump-flood code).  Every concrete computation
    appearing in the claims involves only small dyadic values (slopes 0
    and 1/2) or small integers, all of which float64/float32 represent
    exactly, so on those inputs the model computes precisely what the Go
    code computes.
  * Go's `int(f)` conversion truncates toward zero; `Float64.trunc`
    below does the same.
  * Mutation is modelled by explicit state passing; loops by structural
    recursion on an explicit fuel that provably dominates the number of
    iterations the Go loop performs.
  * `color.Color` values are modelled by their RGBA quadruple, the only
    observation the code ever makes of them.
  * Errors (`error` results) are modelled by `Option Unit` (`none` = nil).
-/

namespace ImageUtils

set_option maxRecDepth 40000

/-- Exact-fraction model of a Go `float64` value.  The denominator is
positive in every state the embedded code actually builds; division by
zero (Go NaN) can only arise for the never-advanced walker of two equal
endpoints, whose slope is never read. -/
structure Float64 where
  num : ℤ
  den : ℤ
deriving DecidableEq, Repr

/-- `float64(z)` for an integer `z`. -/
def Float64.ofInt (z : ℤ) : Float64 := ⟨z, 1⟩

/-- Exact addition of fractions. -/
def Float64.add (a b : Float64) : Float64 :=
  ⟨a.num * b.den + b.num * a.den, a.den * b.den⟩

/-- Exact multiplication of fractions. -/
def Float64.mul (a b : Float64) : Float64 := ⟨a.num * b.num, a.den * b.den⟩

/-- Exact division of fractions. -/
def Float64.div (a b : Float64) : Float64 := ⟨a.num * b.den, a.den * b.num⟩

/-- Go's `int(f)` conversion: truncation toward zero
(`Int.tdiv` is toward-zero division, like Go's integer division). -/
def Float64.trunc (f : Float64) : ℤ := Int.tdiv f.num f.den

/-- The rational value a `Float64` fraction denotes. -/
def Float64.val (f : Float64) : ℚ := (f.num : ℚ) / (f.den : ℚ)

/-- Model of Go's `image.Point`. -/
structure Pt where
  x : ℤ
  y : ℤ
deriving DecidableEq, Repr

/-- Model of a `color.Color` by its RGBA channel quadruple
(alpha-premultiplied 16-bit magnitudes, as returned by `RGBA()`). -/
structure Color where
  r : ℕ
  g : ℕ
  b : ℕ
  a : ℕ
deriving DecidableEq, Repr

/-- Model of Go's `image.Rectangle`. -/
structure Rect where
  min : Pt
  max : Pt
deriving DecidableEq, Repr

/-- Model of Go's `image.Rect(x0, y0, x1, y1)` constructor, which swaps
the coordinates on each axis so that min ≤ max. -/
def goRect (x0 y0 x1 y1 : ℤ) : Rect :=
  let px := if x1 < x0 then (x1, x0) else (x0, x1)
  let py := if y1 < y0 then (y1, y0) else (y0, y1)
  ⟨⟨px.1, py.1⟩, ⟨px.2, py.2⟩⟩

/-- `image.Rectangle.Canon`: swap Min.X/Max.X if needed, then Min.Y/Max.Y. -/
def Rect.Canon (r : Rect) : Rect :=
  let r1 := if r.max.x < r.min.x then
    Rect.mk ⟨r.max.x, r.min.y⟩ ⟨r.min.x, r.max.y⟩ else r
  if r1.max.y < r1.min.y then
    Rect.mk ⟨r1.min.x, r1.max.y⟩ ⟨r1.max.x, r1.min.y⟩ else r1

/-- `image.Rectangle.Dx`. -/
def Rect.Dx (r : Rect) : ℤ := r.max.x - r.min.x

/-- `image.Rectangle.Dy`. -/
def Rect.Dy (r : Rect) : ℤ := r.max.y - r.min.y

/-- State of the `widerLine` walker (drawing_utils.go lines 32-38). -/
structure WiderLine where
  origX : ℤ
  x     : ℤ
  y     : Float64
  maxX  : ℤ
  slope : Float64
deriving DecidableEq, Repr

/-- `widerLine.Next` (lines 40-47): emit the current point
`(x, int(y + float64(x)*slope))`, then advance x. -/
def WiderLine.next (l : WiderLine) : Pt × WiderLine :=
  (⟨l.x, (l.y.add ((Float64.ofInt l.x).mul l.slope)).trunc⟩,
   { l with x := l.x + 1 })

/-- `widerLine.Done` (lines 49-51): `l.x >= l.maxX`. -/
def WiderLine.done (l : WiderLine) : Bool := decide (l.maxX ≤ l.x)

/-- `widerLine.Reset` (lines 53-55). -/
def WiderLine.reset (l : WiderLine) : WiderLine := { l with x := l.origX }

/-- State of the `tallerLine` walker (lines 59-65). -/
structure TallerLine where
  x     : Float64
  origY : ℤ
  y     : ℤ
  maxY  : ℤ
  slope : Float64
deriving DecidableEq, Repr

/-- `tallerLine.Next` (lines 67-74): emit `(int(x + float64(y)*slope), y)`,
then advance y. -/
def TallerLine.next (l : TallerLine) : Pt × TallerLine :=
  (⟨(l.x.add ((Float64.ofInt l.y).mul l.slope)).trunc, l.y⟩,
   { l with y := l.y + 1 })

/-- `tallerLine.Done` (lines 80-82): `l.y >= l.maxY`. -/
def TallerLine.done (l : TallerLine) : Bool := decide (l.maxY ≤ l.y)

/-- `tallerLine.Reset` (lines 76-78). -/
def TallerLine.reset (l : TallerLine) : TallerLine := { l with y := l.origY }

/-- A line `ShapeWalker` is one of the two concrete walkers. -/
inductive LineWalker where
  | wider : WiderLine → LineWalker
  | taller : TallerLine → LineWalker
deriving DecidableEq, Repr

def LineWalker.next : LineWalker → Pt × LineWalker
  | .wider l => ((l.next).1, .wider (l.next).2)
  | .taller l => ((l.next).1, .taller (l.next).2)

def LineWalker.done : LineWalker → Bool
  | .wider l => l.done
  | .taller l => l.done

def LineWalker.reset : LineWalker → LineWalker
  | .wider l => .wider l.reset
  | .taller l => .taller l.reset

/-- Which branch was selected (taller = y-major). -/
def LineWalker.isTaller : LineWalker → Bool
  | .wider _ => false
  | .taller _ => true

/-- `GetLineWalker` (drawing_utils.go lines 85-124), translated branch by
branch.  In the swapped branches `dx`/`dy` are recomputed from the swapped
endpoints (signed); in the unswapped branches the absolute values feed the
slope, exactly as in the source. -/
def GetLineWalker (a b : Pt) : LineWalker :=
  let dx0 := b.x - a.x
  let dy0 := b.y - a.y
  let dx := if dx0 < 0 then -dx0 else dx0
  let dy := if dy0 < 0 then -dy0 else dy0
  if dx > dy then
    if a.x > b.x then
      -- a, b = b, a; dx, dy recomputed from the swapped endpoints
      LineWalker.wider
        { origX := b.x, x := b.x, y := Float64.ofInt b.y,
          slope := (Float64.ofInt (a.y - b.y)).div (Float64.ofInt (a.x - b.x)),
          maxX := a.x }
    else
      LineWalker.wider
        { origX := a.x, x := a.x, y := Float64.ofInt a.y,
          slope := (Float64.ofInt dy).div (Float64.ofInt dx), maxX := b.x }
  else
    if a.y > b.y then
      LineWalker.taller
        { x := Float64.ofInt b.x, origY := b.y, y := b.y,
          slope := (Float64.ofInt (a.x - b.x)).div (Float64.ofInt (a.y - b.y)),
          maxY := a.y }
    else
      LineWalker.taller
        { x := Float64.ofInt a.x, origY := a.y, y := a.y,
          slope := (Float64.ofInt dx).div (Float64.ofInt dy), maxY := b.y }

/-- Number of `Next` calls a drive loop `while !Done() { Next() }` will
make on this walker (proof-side measure: bound minus current counter). -/
def LineWalker.stepsLeft : LineWalker → ℤ
  | .wider l => l.maxX - l.x
  | .taller l => l.maxY - l.y

/-- Fuel-indexed unfolding of the `while !Done() { p := Next() }` loop,
collecting the emitted points. -/
def walkFuel : ℕ → LineWalker → List Pt
  | 0, _ => []
  | n + 1, w =>
    if w.done then []
    else (w.next).1 :: walkFuel n (w.next).2

/-- The full point sequence a walker emits when driven until `Done()`. -/
def LineWalker.walk (w : LineWalker) : List Pt := walkFuel w.stepsLeft.toNat w

/-- The point sequence of the line walker from `a` to `b`. -/
def lineWalk (a b : Pt) : List Pt := (GetLineWalker a b).walk

/-- The `maxSteps` sanity ceiling in `DrawLine` (line 130). -/
def maxSteps : ℕ := 200000000

/-- The loop body of `DrawLine` (lines 133-141): while the walker is not
done, bump the step counter, fail once it reaches `maxSteps`, otherwise
write the next point.  Fuel `maxSteps - 1` reproduces the counter check:
the Go loop performs at most `maxSteps - 1` writes before erroring. -/
def drawLoop (c : Color) : ℕ → LineWalker → Option (List (Pt × Color))
  | 0, w => if w.done then some [] else none
  | n + 1, w =>
    if w.done then some []
    else
      match drawLoop c n (w.next).2 with
      | none => none
      | some rest => some (((w.next).1, c) :: rest)

/-- `DrawLine` (lines 128-143), returning the ordered log of `dst.Set`
calls (point and color), or `none` for the "line too long" error. -/
def DrawLine (a b : Pt) (c : Color) : Option (List (Pt × Color)) :=
  drawLoop c (maxSteps - 1) (GetLineWalker a b).reset

/-- State of `rectangleWalker` (drawing_utils.go lines 146-150). -/
structure RectWalker where
  edges : List LineWalker
  segment : ℕ
deriving DecidableEq, Repr

/-- `GetRectangleWalker` (lines 153-168). -/
def GetRectangleWalker (r : Rect) : RectWalker :=
  let r := r.Canon
  let topLeft := r.min
  let topRight : Pt := ⟨r.max.x, r.min.y⟩
  let bottomRight := r.max
  let bottomLeft : Pt := ⟨r.min.x, r.max.y⟩
  { edges := [GetLineWalker topLeft topRight,
              GetLineWalker topRight bottomRight,
              GetLineWalker bottomRight bottomLeft,
              GetLineWalker bottomLeft topLeft],
    segment := 0 }

/-- `rectangleWalker.Done` (lines 177-179). -/
def RectWalker.done (w : RectWalker) : Bool := decide (w.edges.length ≤ w.segment)

/-- `rectangleWalker.Next` (lines 181-191).  The Go code first indexes
`edges[segment]`, which panics when `segment` is already past the end
(modelled by `none`); the drive loop below never reaches that state
because it checks `Done()` first.  If advancing lands past the last edge,
the final edge is replayed. -/
def RectWalker.next (w : RectWalker) : Option (Pt × RectWalker) :=
  match w.edges.get? w.segment with
  | none => none
  | some e =>
    let seg := if e.done then w.segment + 1 else w.segment
    if seg ≥ w.edges.length then
      match w.edges.getLast? with
      | none => none
      | some last =>
        some ((last.next).1,
          { edges := w.edges.set (w.edges.length - 1) (last.next).2,
            segment := seg })
    else
      match w.edges.get? seg with
      | none => none
      | some e2 =>
        some ((e2.next).1,
          { edges := w.edges.set seg (e2.next).2, segment := seg })

/-- Fuel-indexed unfolding of `while !Done() { p := Next() }` over a
rectangle walker, collecting the emitted points. -/
def rectWalkFuel : ℕ → RectWalker → List Pt
  | 0, _ => []
  | n + 1, w =>
    if w.done then []
    else
      match w.next with
      | none => []
      | some pw => pw.1 :: rectWalkFuel n pw.2

/-- The traversal of the rectangle (0,0)-(3,3) used by the claims.  A
fuel of 100 strictly dominates the 12 `Next()` calls this walker answers
before `Done()` becomes true. -/
def rectWalk33 : List Pt := rectWalkFuel 100 (GetRectangleWalker (goRect 0 0 3 3))

/-- `VoronoiPixel` (drawing_utils.go lines 282-293). -/
structure VoronoiPixel where
  isSeed : Bool
  isDefined : Bool
  color : Color
  seedLocation : Pt
deriving DecidableEq, Repr

/-- The shared `undefinedPixel` sentinel (lines 298-301); its remaining
fields are Go zero values (the nil color is modelled as ⟨0,0,0,0⟩ — it is
never read while `isDefined` is false). -/
def undefinedPixel : VoronoiPixel :=
  { isSeed := false, isDefined := false, color := ⟨0, 0, 0, 0⟩,
    seedLocation := ⟨0, 0⟩ }

/-- `VoronoiPixel.RGBA` (lines 307-312): an undefined pixel reads as
(0, 0, 0, 0xffff); a defined pixel reads as its color. -/
def VoronoiPixel.RGBA (p : VoronoiPixel) : Color :=
  if p.isDefined = false then ⟨0, 0, 0, 0xffff⟩ else p.color

/-- `VoronoiImage` (lines 318-323). -/
structure VoronoiImage where
  W : ℤ
  H : ℤ
  Pixels : List VoronoiPixel
deriving DecidableEq, Repr

/-- `VoronoiImage.At` (lines 335-342): out-of-bounds reads yield the
undefined sentinel, in-bounds reads index `Pixels[y*W+x]`. -/
def VoronoiImage.At (v : VoronoiImage) (x y : ℤ) : VoronoiPixel :=
  if x < 0 ∨ x ≥ v.W ∨ y < 0 ∨ y ≥ v.H then undefinedPixel
  else v.Pixels.getD (y * v.W + x).toNat undefinedPixel

/-- Squared distance from `(x, y)` to a seed location, as computed with
`float32` subtractions and multiplications in the source (exact here; the
claims only involve coordinates far below the float32 exactness bound). -/
def sqDist (x y : ℤ) (s : Pt) : ℤ := (x - s.x) * (x - s.x) + (y - s.y) * (y - s.y)

/-- The neighbor offsets of the inner loops of `setSinglePixel`
(lines 357-361): `j` outer, `i` inner, both -1..1, skipping (0,0). -/
def neighborOffsets : List (ℤ × ℤ) :=
  [(-1, -1), (0, -1), (1, -1), (-1, 0), (1, 0), (-1, 1), (0, 1), (1, 1)]

/-- One neighbor examination of `setSinglePixel` (lines 362-388).  The
state is the pixel being updated together with `curSeedDistance`. -/
def scanNeighbor (v : VoronoiImage) (x y stepSize : ℤ)
    (st : VoronoiPixel × ℤ) (off : ℤ × ℤ) : VoronoiPixel × ℤ :=
  let target := v.At (x + off.1 * stepSize) (y + off.2 * stepSize)
  if target.isDefined = false then st
  else
    let d := sqDist x y target.seedLocation
    if st.1.isDefined = false then
      ({ st.1 with isDefined := true, color := target.color,
                   seedLocation := target.seedLocation }, d)
    else if d ≥ st.2 then st
    else
      ({ st.1 with seedLocation := target.seedLocation,
                   color := target.color }, d)

/-- `VoronoiImage.setSinglePixel` (lines 346-390).  Seeds are skipped;
otherwise the eight neighbors at the given step size are scanned in
source order and the updated pixel is stored back at `y*W+x`.  (The Go
code indexes the slice directly; callers only pass in-range coordinates.)
Neighbor reads go through `At` on the unmodified image, which matches the
in-place Go code because the scanned targets never alias the updated
cell. -/
def setSinglePixel (v : VoronoiImage) (x y stepSize : ℤ) : VoronoiImage :=
  let idx := (y * v.W + x).toNat
  let p := v.Pixels.getD idx undefinedPixel
  if p.isSeed then v
  else
    let cur0 : ℤ := if p.isDefined then sqDist x y p.seedLocation else 0
    let res := neighborOffsets.foldl (scanNeighbor v x y stepSize) (p, cur0)
    { v with Pixels := v.Pixels.set idx res.1 }

/-- One full raster pass of `JumpFloodFill` (lines 402-406) at a given
step size, over the captured width and height. -/
def jumpFloodPass (w h : ℤ) (v : VoronoiImage) (stepSize : ℤ) : VoronoiImage :=
  (List.range h.toNat).foldl
    (fun vy y =>
      (List.range w.toNat).foldl
        (fun vx x => setSinglePixel vx (x : ℤ) (y : ℤ) stepSize) vy)
    v

/-- The step-halving loop of `JumpFloodFill` (lines 401-408).  `>> 1` on a
Go signed int is an arithmetic shift, i.e. floor division by 2.  The fuel
`stepSize.toNat + 1` dominates the iteration count because a positive
step strictly decreases at every halving. -/
def jffLoop (w h : ℤ) : ℕ → ℤ → VoronoiImage → VoronoiImage
  | 0, _, v => v
  | n + 1, stepSize, v =>
    if stepSize > 0 then
      jffLoop w h n (Int.fdiv stepSize 2) (jumpFloodPass w h v stepSize)
    else v

/-- `VoronoiImage.JumpFloodFill` (lines 393-412): no validation is
performed; the initial step is `max(W, H) >> 1`; the returned error is
always nil. -/
def JumpFloodFill (v : VoronoiImage) : VoronoiImage × Option Unit :=
  let w := v.W
  let h := v.H
  let stepSize := Int.fdiv (if h > w then h else w) 2
  (jffLoop w h (stepSize.toNat + 1) stepSize v, none)

/-- The seed initialization loop of `VoronoiFill` (lines 437-449): a
row-major `w*h` pixel grid, seeds getting the surface color and their own
location, all other cells keeping the zero value. -/
def initialVoronoiPixels (w h : ℤ) (atF : ℤ → ℤ → Color)
    (isSeedF : ℤ → ℤ → Bool) : List VoronoiPixel :=
  ((List.range h.toNat).map (fun (y : ℕ) =>
    (List.range w.toNat).map (fun (x : ℕ) =>
      if isSeedF (x : ℤ) (y : ℤ) then
        { isSeed := true, isDefined := true, color := atF (x : ℤ) (y : ℤ),
          seedLocation := ⟨(x : ℤ), (y : ℤ)⟩ }
      else undefinedPixel))).flatten

/-- `VoronoiFill` (lines 421-469) for a drawable surface, modelled by its
bounds, its color reader and the seed predicate.  (The dynamic
"isn't drawable" type assertion has no counterpart for a surface given
directly by its reader.)  Returns the ordered log of `pic.Set(x, y, c)`
write-backs, where each written color is observed through the
`VoronoiPixel.RGBA` of the cell being copied back; `none` models a
returned error. -/
def VoronoiFill (bounds : Rect) (atF : ℤ → ℤ → Color)
    (isSeedF : ℤ → ℤ → Bool) : Option (List (ℤ × ℤ × Color)) :=
  if bounds.min.x = 0 ∧ bounds.min.y = 0 ∧ bounds.max.x > 0 ∧ bounds.max.y > 0 then
    let w := bounds.Dx
    let h := bounds.Dy
    let v : VoronoiImage := ⟨w, h, initialVoronoiPixels w h atF isSeedF⟩
    let res := JumpFloodFill v
    match res.2 with
    | some _ => none
    | none =>
      some (((List.range h.toNat).map (fun (y : ℕ) =>
        (List.range w.toNat).map (fun (x : ℕ) =>
          ((x : ℤ), (y : ℤ), (res.1.At (x : ℤ) (y : ℤ)).RGBA)))).flatten)
  else none

/-- A layer image, modelled by its bounds — the only observation
`AddImage` and `Bounds` make of a layer.  (`CompositeImage.At`, which
reads layer colors, is not needed by any claim.) -/
structure Img where
  bounds : Rect
deriving DecidableEq, Repr

/-- `CompositeImage` (composite_image.go lines 16-27). -/
structure CompositeImage where
  layerPics : List Img
  topLeftPoints : List Pt
  compositeBounds : List Rect
  bounds : Rect
deriving DecidableEq, Repr

/-- `NewCompositeImage` (lines 30-37): empty layers, bounds (0,0)-(1,1). -/
def NewCompositeImage : CompositeImage :=
  { layerPics := [], topLeftPoints := [], compositeBounds := [],
    bounds := goRect 0 0 1 1 }

/-- `CompositeImage.Bounds` (lines 39-41). -/
def CompositeImage.Bounds (c : CompositeImage) : Rect :=
  goRect 0 0 c.bounds.Dx c.bounds.Dy

/-- `CompositeImage.AddImage` (lines 79-103): grow the stored bounds by
the new layer's translated rectangle and append the layer; the returned
error is always nil. -/
def CompositeImage.AddImage (c : CompositeImage) (pic : Img) (topLeft : Pt) :
    CompositeImage × Option Unit :=
  let minX := if topLeft.x < c.bounds.min.x then topLeft.x else c.bounds.min.x
  let minY := if topLeft.y < c.bounds.min.y then topLeft.y else c.bounds.min.y
  let b := pic.bounds.Canon
  let bottomRight : Pt := ⟨topLeft.x + b.Dx, topLeft.y + b.Dy⟩
  let maxX := if bottomRight.x > c.bounds.max.x then bottomRight.x else c.bounds.max.x
  let maxY := if bottomRight.y > c.bounds.max.y then bottomRight.y else c.bounds.max.y
  ({ layerPics := c.layerPics ++ [pic],
     topLeftPoints := c.topLeftPoints ++ [topLeft],
     compositeBounds := c.compositeBounds ++ [⟨topLeft, bottomRight⟩],
     bounds := ⟨⟨minX, minY⟩, ⟨maxX, maxY⟩⟩ }, none)

/-- Modelled from the spec: the perimeter pixels of the rectangle with
corners (0,0) and (3,3) — the integer points of its four boundary
segments. -/
def specRectPerimeter33 : List Pt :=
  [⟨0, 0⟩, ⟨1, 0⟩, ⟨2, 0⟩, ⟨3, 0⟩,
   ⟨0, 1⟩, ⟨3, 1⟩,
   ⟨0, 2⟩, ⟨3, 2⟩,
   ⟨0, 3⟩, ⟨1, 3⟩, ⟨2, 3⟩, ⟨3, 3⟩]

/-- Modelled from the spec: a layer's translated bounding rectangle —
its top-left placement point extended by the layer's width and height. -/
def specLayerRect (pic : Img) (topLeft : Pt) : Rect :=
  ⟨topLeft, ⟨topLeft.x + pic.bounds.Canon.Dx, topLeft.y + pic.bounds.Canon.Dy⟩⟩

/-- Modelled from the spec: the union (bounding hull) of two rectangles. -/
def rectUnion (r s : Rect) : Rect :=
  ⟨⟨min r.min.x s.min.x, min r.min.y s.min.y⟩,
   ⟨max r.max.x s.max.x, max r.max.y s.max.y⟩⟩

/-- Proof-side invariant: `v` agrees with `v₀` on dimensions, pixel
count, the seed flag of every cell, and every cell that is a seed in
`v₀` is entirely unchanged in `v`. -/
def PreservesSeeds (v₀ v : VoronoiImage) : Prop :=
  v.W = v₀.W ∧ v.H = v₀.H ∧ v.Pixels.length = v₀.Pixels.length ∧
  (∀ i : ℕ, (v.Pixels.getD i undefinedPixel).isSeed
      = (v₀.Pixels.getD i undefinedPixel).isSeed) ∧
  (∀ i : ℕ, (v₀.Pixels.getD i undefinedPixel).isSeed = true →
      v.Pixels.getD i undefinedPixel = v₀.Pixels.getD i undefinedPixel)

/-- Proof-side invariant: no cell of `v` is defined. -/
def AllUndef (v : VoronoiImage) : Prop := ∀ p ∈ v.Pixels, p.isDefined = false

/-- Proof-side projection of a pixel to the fields the jump-flood
control flow can observe: seed flag, defined flag, seed location.  The
algorithm's branch decisions never read colors. -/
def pshape (p : VoronoiPixel) : Bool × Bool × Pt :=
  (p.isSeed, p.isDefined, p.seedLocation)

/-- Proof-side simulation relation: two images with identical dimensions
and cell-by-cell identical observable shape (they may differ in
colors). -/
def SameShape (v v' : VoronoiImage) : Prop :=
  v.W = v'.W ∧ v.H = v'.H ∧ v.Pixels.length = v'.Pixels.length ∧
  ∀ i : ℕ, pshape (v.Pixels.getD i undefinedPixel)
    = pshape (v'.Pixels.getD i undefinedPixel)

/-- Proof-side invariant: every defined cell's color is the value of `g`
at its seed location. -/
def ColorsFrom (g : Pt → Color) (v : VoronoiImage) : Prop :=
  ∀ p ∈ v.Pixels, p.isDefined = true → p.color = g p.seedLocation

/-- Proof-side abbreviation: the pixel value the non-seed branch of
`setSinglePixel` stores back at `y*W+x`. -/
def scanned (v : VoronoiImage) (x y s : ℤ) : VoronoiPixel :=
  (neighborOffsets.foldl (scanNeighbor v x y s)
    (v.Pixels.getD ((y * v.W + x).toNat) undefinedPixel,
     if (v.Pixels.getD ((y * v.W + x).toNat) undefinedPixel).isDefined
     then sqDist x y
       (v.Pixels.getD ((y * v.W + x).toNat) undefinedPixel).seedLocation
     else 0)).1

/-! ### Lemmas about the line walkers -/

lemma LineWalker.done_iff (w : LineWalker) : w.done = true ↔ w.stepsLeft ≤ 0 := by
  cases w <;>
    simp [done, WiderLine.done, TallerLine.done, stepsLeft, sub_nonpos]

lemma LineWalker.next_stepsLeft (w : LineWalker) :
    (w.next).2.stepsLeft = w.stepsLeft - 1 := by
  cases w <;>
    simp [next, WiderLine.next, TallerLine.next, stepsLeft] <;> ring

/-- Characterization of the wider (x-major) walk: the point emitted at
step `t` is `(x₀ + t, int(y + float64(x₀ + t) * slope))`, for
`t = 0, …, (maxX - x₀) - 1`. -/
lemma walkFuel_wider : ∀ (n : ℕ) (l : WiderLine), (l.maxX - l.x).toNat ≤ n →
    walkFuel n (.wider l) = (List.range (l.maxX - l.x).toNat).map
      (fun (t : ℕ) => Pt.mk (l.x + (t : ℤ))
        ((l.y.add ((Float64.ofInt (l.x + (t : ℤ))).mul l.slope)).trunc)) := by
  intro n
  induction n with
  | zero =>
    intro l h
    have h0 : (l.maxX - l.x).toNat = 0 := Nat.le_zero.mp h
    simp [walkFuel, h0]
  | succ n ih =>
    intro l h
    by_cases hd : l.maxX ≤ l.x
    · have h0 : (l.maxX - l.x).toNat = 0 := by omega
      simp [walkFuel, LineWalker.done, WiderLine.done, hd, h0]
    · have hk : (l.maxX - l.x).toNat = (l.maxX - (l.x + 1)).toNat + 1 := by omega
      have hnext : walkFuel (n + 1) (.wider l)
          = Pt.mk l.x ((l.y.add ((Float64.ofInt l.x).mul l.slope)).trunc)
            :: walkFuel n (.wider { l with x := l.x + 1 }) := by
        simp [walkFuel, LineWalker.done, WiderLine.done, hd,
          LineWalker.next, WiderLine.next]
      rw [hnext, ih _ (by simp; omega), hk, List.range_succ_eq_map]
      simp only [List.map_cons, List.map_map]
      congr 1
      · norm_num
      · apply List.map_congr_left
        intro t _
        have harg : l.x + ((t + 1 : ℕ) : ℤ) = l.x + 1 + (t : ℤ) := by
          push_cast; ring
        simp only [Function.comp_apply, harg]

/-- Characterization of the taller (y-major) walk. -/
lemma walkFuel_taller : ∀ (n : ℕ) (l : TallerLine), (l.maxY - l.y).toNat ≤ n →
    walkFuel n (.taller l) = (List.range (l.maxY - l.y).toNat).map
      (fun (t : ℕ) => Pt.mk ((l.x.add ((Float64.ofInt (l.y + (t : ℤ))).mul l.slope)).trunc)
        (l.y + (t : ℤ))) := by
  intro n
  induction n with
  | zero =>
    intro l h
    have h0 : (l.maxY - l.y).toNat = 0 := Nat.le_zero.mp h
    simp [walkFuel, h0]
  | succ n ih =>
    intro l h
    by_cases hd : l.maxY ≤ l.y
    · have h0 : (l.maxY - l.y).toNat = 0 := by omega
      simp [walkFuel, LineWalker.done, TallerLine.done, hd, h0]
    · have hk : (l.maxY - l.y).toNat = (l.maxY - (l.y + 1)).toNat + 1 := by omega
      have hnext : walkFuel (n + 1) (.taller l)
          = Pt.mk ((l.x.add ((Float64.ofInt l.y).mul l.slope)).trunc) l.y
            :: walkFuel n (.taller { l with y := l.y + 1 }) := by
        simp [walkFuel, LineWalker.done, TallerLine.done, hd,
          LineWalker.next, TallerLine.next]
      rw [hnext, ih _ (by simp; omega), hk, List.range_succ_eq_map]
      simp only [List.map_cons, List.map_map]
      congr 1
      · norm_num
      · apply List.map_congr_left
        intro t _
        have harg : l.y + ((t + 1 : ℕ) : ℤ) = l.y + 1 + (t : ℤ) := by
          push_cast; ring
        simp only [Function.comp_apply, harg]

lemma walk_wider (l : WiderLine) :
    (LineWalker.wider l).walk = (List.range (l.maxX - l.x).toNat).map
      (fun (t : ℕ) => Pt.mk (l.x + (t : ℤ))
        ((l.y.add ((Float64.ofInt (l.x + (t : ℤ))).mul l.slope)).trunc)) :=
  walkFuel_wider _ l (le_refl _)

lemma walk_taller (l : TallerLine) :
    (LineWalker.taller l).walk = (List.range (l.maxY - l.y).toNat).map
      (fun (t : ℕ) => Pt.mk ((l.x.add ((Float64.ofInt (l.y + (t : ℤ))).mul l.slope)).trunc)
        (l.y + (t : ℤ))) :=
  walkFuel_taller _ l (le_refl _)

/-- Both walk shapes have `stepsLeft` points and strictly increasing
major-axis coordinates, hence no duplicates. -/
lemma walk_length (w : LineWalker) : w.walk.length = w.stepsLeft.toNat := by
  cases w with
  | wider l => rw [walk_wider]; simp [LineWalker.stepsLeft]
  | taller l => rw [walk_taller]; simp [LineWalker.stepsLeft]

lemma walk_nodup (w : LineWalker) : w.walk.Nodup := by
  cases w with
  | wider l =>
    rw [walk_wider]
    refine List.Nodup.map ?_ (List.nodup_range _)
    intro t1 t2 heq
    have : l.x + (t1 : ℤ) = l.x + (t2 : ℤ) := congrArg Pt.x heq
    omega
  | taller l =>
    rw [walk_taller]
    refine List.Nodup.map ?_ (List.nodup_range _)
    intro t1 t2 heq
    have : l.y + (t1 : ℤ) = l.y + (t2 : ℤ) := congrArg Pt.y heq
    omega

/-- The drive loop of `DrawLine` with enough fuel emits exactly the walk,
pairing each point with the constant color. -/
lemma drawLoop_eq (c : Color) : ∀ (n : ℕ) (w : LineWalker),
    w.stepsLeft.toNat ≤ n →
    drawLoop c n w = some (w.walk.map (fun p => (p, c))) := by
  intro n
  induction n with
  | zero =>
    intro w h
    have hdone : w.done = true := by
      rw [LineWalker.done_iff]; omega
    have h0 : w.stepsLeft.toNat = 0 := Nat.le_zero.mp h
    simp [drawLoop, hdone, LineWalker.walk, h0, walkFuel]
  | succ n ih =>
    intro w h
    by_cases hdone : w.done = true
    · have h0 : w.stepsLeft.toNat = 0 := by
        have := (LineWalker.done_iff w).mp hdone; omega
      simp [drawLoop, hdone, LineWalker.walk, h0, walkFuel]
    · have hpos : 0 < w.stepsLeft := by
        by_contra hle
        exact hdone ((LineWalker.done_iff w).mpr (by omega))
      have hwsteps : (w.next).2.stepsLeft.toNat ≤ n := by
        rw [LineWalker.next_stepsLeft]; omega
      have hwalk : w.walk = (w.next).1 :: (w.next).2.walk := by
        unfold LineWalker.walk
        have hk : w.stepsLeft.toNat = (w.next).2.stepsLeft.toNat + 1 := by
          rw [LineWalker.next_stepsLeft]; omega
        rw [hk]
        simp [walkFuel, hdone]
      simp only [drawLoop, hdone, if_false, Bool.false_eq_true, ih _ hwsteps,
        hwalk, List.map_cons]

/-- `Reset` is the identity on freshly constructed line walkers: the
cursor already equals the stored origin. -/
lemma reset_getLineWalker (a b : Pt) :
    (GetLineWalker a b).reset = GetLineWalker a b := by
  simp only [GetLineWalker]
  split_ifs <;> rfl

/-- The number of points a freshly built line walker emits is the larger
of the two absolute coordinate deltas. -/
lemma steps_getLineWalker (a b : Pt) :
    (GetLineWalker a b).stepsLeft.toNat
      = max (b.x - a.x).natAbs (b.y - a.y).natAbs := by
  simp only [GetLineWalker]
  split_ifs <;> simp [LineWalker.stepsLeft] <;> omega

/-! ### Claims C1, C4, C8: line walking and DrawLine -/

/-- C1, counterexample: drawing the line from (0,0) to (2,0) writes
exactly two points, `max(|Δx|, |Δy|) = 2`, not `max + 1 = 3`, and the
terminal endpoint (2,0) is never written — refuting the claimed point
count and terminal-point inclusion. -/
theorem C1_counterexample :
    DrawLine ⟨0, 0⟩ ⟨2, 0⟩ ⟨1, 2, 3, 4⟩
      = some [(⟨0, 0⟩, ⟨1, 2, 3, 4⟩), (⟨1, 0⟩, ⟨1, 2, 3, 4⟩)] ∧
    ((DrawLine ⟨0, 0⟩ ⟨2, 0⟩ ⟨1, 2, 3, 4⟩).getD []).length = 2 ∧
    (⟨2, 0⟩, (⟨1, 2, 3, 4⟩ : Color)) ∉
      (DrawLine ⟨0, 0⟩ ⟨2, 0⟩ ⟨1, 2, 3, 4⟩).getD [] := by
  refine ⟨by decide, by decide, by decide⟩

/-- C1, amended: for endpoints whose larger absolute delta is below the
200000000 safety ceiling, `DrawLine` writes color `c` to exactly the
points produced by the line walker built from `(a, b)`, in walker order,
each exactly once; the number of points written is `max(|Δx|, |Δy|)`
(the terminal point of the walk is excluded, since `Done()` fires once
the majority-axis counter reaches the bound). -/
theorem C1_drawLine_writes_walk (a b : Pt) (c : Color)
    (h : max (b.x - a.x).natAbs (b.y - a.y).natAbs < 200000000) :
    DrawLine a b c = some ((lineWalk a b).map (fun p => (p, c))) ∧
    (lineWalk a b).length = max (b.x - a.x).natAbs (b.y - a.y).natAbs ∧
    (lineWalk a b).Nodup := by
  have hsteps := steps_getLineWalker a b
  refine ⟨?_, ?_, walk_nodup _⟩
  · unfold DrawLine
    rw [reset_getLineWalker]
    exact drawLoop_eq c _ _ (by rw [hsteps]; unfold maxSteps; omega)
  · rw [lineWalk, walk_length, hsteps]

/-- C1, witness for `C1_drawLine_writes_walk` at (0,0)-(4,2). -/
theorem C1_drawLine_writes_walk_witness :
    max ((4 : ℤ) - 0).natAbs ((2 : ℤ) - 0).natAbs < 200000000 ∧
    (DrawLine ⟨0, 0⟩ ⟨4, 2⟩ ⟨7, 7, 7, 7⟩
        = some ((lineWalk ⟨0, 0⟩ ⟨4, 2⟩).map (fun p => (p, ⟨7, 7, 7, 7⟩))) ∧
      (lineWalk ⟨0, 0⟩ ⟨4, 2⟩).length
        = max ((4 : ℤ) - 0).natAbs ((2 : ℤ) - 0).natAbs ∧
      (lineWalk ⟨0, 0⟩ ⟨4, 2⟩).Nodup) :=
  ⟨by decide, C1_drawLine_writes_walk ⟨0, 0⟩ ⟨4, 2⟩ ⟨7, 7, 7, 7⟩ (by decide)⟩

/-- C4, counterexample: the walker over (0,0)-(4,2) emits exactly
(0,0),(1,0),(2,1),(3,1) — not the claimed five-point sequence ending in
(4,2).  Moreover over (2,0)-(6,2) the first emitted point is (2,1), not
(2,0): the minor coordinate is computed from the absolute majority-axis
coordinate (`origin + x * slope`), not from the step offset
(`origin + t * slope`). -/
theorem C4_counterexample :
    lineWalk ⟨0, 0⟩ ⟨4, 2⟩ = [⟨0, 0⟩, ⟨1, 0⟩, ⟨2, 1⟩, ⟨3, 1⟩] ∧
    lineWalk ⟨0, 0⟩ ⟨4, 2⟩ ≠ [⟨0, 0⟩, ⟨1, 0⟩, ⟨2, 1⟩, ⟨3, 1⟩, ⟨4, 2⟩] ∧
    lineWalk ⟨2, 0⟩ ⟨6, 2⟩ = [⟨2, 1⟩, ⟨3, 1⟩, ⟨4, 2⟩, ⟨5, 2⟩] := by
  refine ⟨by decide, by decide, by decide⟩

/-- C4, amended: at the t-th step the walker emits, on the non-majority
axis, `int(minorOrigin + float64(majorStart + t) * slope)` — the stored
slope times the absolute majority-axis coordinate, truncated — for
`t = 0, …, max(|Δx|, |Δy|) - 1`; the walker over (0,0)-(4,2) is x-major
with slope value 1/2 and produces exactly (0,0),(1,0),(2,1),(3,1), the
terminal (4,2) being excluded. -/
theorem C4_step_formula :
    (∀ l : WiderLine, (LineWalker.wider l).walk
        = (List.range (l.maxX - l.x).toNat).map
            (fun (t : ℕ) => Pt.mk (l.x + (t : ℤ))
              ((l.y.add ((Float64.ofInt (l.x + (t : ℤ))).mul l.slope)).trunc))) ∧
    (∀ l : TallerLine, (LineWalker.taller l).walk
        = (List.range (l.maxY - l.y).toNat).map
            (fun (t : ℕ) => Pt.mk
              ((l.x.add ((Float64.ofInt (l.y + (t : ℤ))).mul l.slope)).trunc)
              (l.y + (t : ℤ)))) ∧
    GetLineWalker ⟨0, 0⟩ ⟨4, 2⟩
      = LineWalker.wider ⟨0, 0, Float64.ofInt 0, 4,
          (Float64.ofInt 2).div (Float64.ofInt 4)⟩ ∧
    ((Float64.ofInt 2).div (Float64.ofInt 4)).val = 1 / 2 ∧
    lineWalk ⟨0, 0⟩ ⟨4, 2⟩ = [⟨0, 0⟩, ⟨1, 0⟩, ⟨2, 1⟩, ⟨3, 1⟩] :=
  ⟨walk_wider, walk_taller, by decide,
    by norm_num [Float64.val, Float64.div, Float64.ofInt], by decide⟩

/-- C8, counterexample: for the equal endpoints (3,5) the y-major branch
is selected, but the walk is empty — it does not consist of the single
point (3,5) as claimed. -/
theorem C8_counterexample :
    (GetLineWalker ⟨3, 5⟩ ⟨3, 5⟩).isTaller = true ∧
    lineWalk ⟨3, 5⟩ ⟨3, 5⟩ = [] ∧
    lineWalk ⟨3, 5⟩ ⟨3, 5⟩ ≠ [⟨3, 5⟩] := by
  refine ⟨by decide, by decide, by decide⟩

/-- C8, amended: creating a line walker from two equal endpoints
(Δx = Δy = 0) selects the y-major branch and produces an empty walk
(no points at all — `Done()` is true immediately), so `DrawLine` on two
equal endpoints writes nothing. -/
theorem C8_equal_endpoints (p : Pt) (c : Color) :
    (GetLineWalker p p).isTaller = true ∧
    lineWalk p p = [] ∧
    DrawLine p p c = some [] := by
  have hpp : GetLineWalker p p = LineWalker.taller
      ⟨Float64.ofInt p.x, p.y, p.y, p.y,
        (Float64.ofInt 0).div (Float64.ofInt 0)⟩ := by
    simp [GetLineWalker]
  have hwalk : lineWalk p p = [] := by
    rw [lineWalk, hpp, LineWalker.walk]
    simp [LineWalker.stepsLeft, walkFuel]
  refine ⟨by rw [hpp]; rfl, hwalk, ?_⟩
  unfold DrawLine
  rw [reset_getLineWalker]
  rw [drawLoop_eq c _ _ ?_]
  · rw [show (GetLineWalker p p).walk = lineWalk p p from rfl, hwalk]
    rfl
  · rw [steps_getLineWalker]
    simp [maxSteps]

/-! ### List helpers for the positional Voronoi invariants -/

lemma list_getD_set_ne {α : Type} (l : List α) (m n : ℕ) (a d : α)
    (h : m ≠ n) : (l.set m a).getD n d = l.getD n d := by
  induction l generalizing m n with
  | nil => rfl
  | cons hd tl ih =>
    cases m with
    | zero =>
      cases n with
      | zero => exact absurd rfl h
      | succ n => rfl
    | succ m =>
      cases n with
      | zero => rfl
      | succ n => exact ih m n (by omega)

lemma list_getD_set_self {α : Type} (l : List α) (n : ℕ) (a d : α)
    (h : n < l.length) : (l.set n a).getD n d = a := by
  induction l generalizing n with
  | nil => simp at h
  | cons hd tl ih =>
    cases n with
    | zero => rfl
    | succ n => exact ih n (by simpa using h)

lemma list_set_oob {α : Type} (l : List α) (n : ℕ) (a : α)
    (h : l.length ≤ n) : l.set n a = l := by
  induction l generalizing n with
  | nil => rfl
  | cons hd tl ih =>
    cases n with
    | zero => simp at h
    | succ n => simp [List.set, ih n (by simpa using h)]

lemma list_mem_set_cases {α : Type} {l : List α} {n : ℕ} {a b : α}
    (h : a ∈ l.set n b) : a ∈ l ∨ a = b := by
  induction l generalizing n with
  | nil => simp [List.set] at h
  | cons hd tl ih =>
    cases n with
    | zero =>
      rcases List.mem_cons.mp h with h1 | h1
      · right; exact h1
      · left; exact List.mem_cons_of_mem _ h1
    | succ n =>
      rcases List.mem_cons.mp h with h1 | h1
      · left; rw [h1]; exact List.mem_cons_self _ _
      · rcases ih h1 with h2 | h2
        · left; exact List.mem_cons_of_mem _ h2
        · right; exact h2

lemma list_getD_mem_or {α : Type} (l : List α) (n : ℕ) (d : α) :
    l.getD n d ∈ l ∨ l.getD n d = d := by
  induction l generalizing n with
  | nil => right; rfl
  | cons hd tl ih =>
    cases n with
    | zero => left; exact List.mem_cons_self _ _
    | succ n =>
      rcases ih n with h | h
      · left; exact List.mem_cons_of_mem _ h
      · right; exact h

lemma list_getD_of_lt {α : Type} (l : List α) (i : ℕ) (d : α)
    (h : i < l.length) : l.getD i d = l.get ⟨i, h⟩ := by
  induction l generalizing i with
  | nil => simp at h
  | cons hd tl ih =>
    cases i with
    | zero => rfl
    | succ i => exact ih i (by simpa using h)

lemma foldl_preserves {α β : Type} (P : β → Prop) (f : β → α → β)
    (hf : ∀ b a, P b → P (f b a)) :
    ∀ (l : List α) (b : β), P b → P (l.foldl f b) := by
  intro l
  induction l with
  | nil => intro b hb; exact hb
  | cons a l ih => intro b hb; exact ih _ (hf b a hb)

/-! ### Invariants of the jump-flood fill (claims C6, C7) -/

lemma scanNeighbor_isSeed (v : VoronoiImage) (x y s : ℤ)
    (st : VoronoiPixel × ℤ) (off : ℤ × ℤ) :
    ((scanNeighbor v x y s st off).1).isSeed = st.1.isSeed := by
  simp only [scanNeighbor]
  split_ifs <;> rfl

lemma foldl_scan_isSeed (v : VoronoiImage) (x y s : ℤ)
    (l : List (ℤ × ℤ)) : ∀ st : VoronoiPixel × ℤ,
    ((l.foldl (scanNeighbor v x y s) st).1).isSeed = st.1.isSeed := by
  induction l with
  | nil => intro st; rfl
  | cons o l ih =>
    intro st
    rw [List.foldl_cons, ih, scanNeighbor_isSeed]

lemma setSinglePixel_eq_of_seed (v : VoronoiImage) (x y s : ℤ)
    (hs : (v.Pixels.getD ((y * v.W + x).toNat) undefinedPixel).isSeed = true) :
    setSinglePixel v x y s = v := by
  simp only [setSinglePixel]
  rw [if_pos hs]

lemma setSinglePixel_eq_set (v : VoronoiImage) (x y s : ℤ)
    (hs : (v.Pixels.getD ((y * v.W + x).toNat) undefinedPixel).isSeed = false) :
    setSinglePixel v x y s
      = { v with Pixels := v.Pixels.set ((y * v.W + x).toNat) (scanned v x y s) } := by
  have hns : ¬ ((v.Pixels.getD ((y * v.W + x).toNat) undefinedPixel).isSeed = true) := by
    rw [hs]; decide
  simp only [setSinglePixel, scanned]
  rw [if_neg hns]

lemma scanned_isSeed (v : VoronoiImage) (x y s : ℤ) :
    (scanned v x y s).isSeed
      = (v.Pixels.getD ((y * v.W + x).toNat) undefinedPixel).isSeed := by
  unfold scanned
  rw [foldl_scan_isSeed]

lemma preservesSeeds_refl (v : VoronoiImage) : PreservesSeeds v v :=
  ⟨rfl, rfl, rfl, fun _ => rfl, fun _ _ => rfl⟩

lemma preservesSeeds_setSinglePixel (v₀ v : VoronoiImage) (x y s : ℤ)
    (h : PreservesSeeds v₀ v) :
    PreservesSeeds v₀ (setSinglePixel v x y s) := by
  obtain ⟨hW, hH, hlen, hseed, hfix⟩ := h
  by_cases hs : (v.Pixels.getD ((y * v.W + x).toNat) undefinedPixel).isSeed = true
  · rw [setSinglePixel_eq_of_seed v x y s hs]
    exact ⟨hW, hH, hlen, hseed, hfix⟩
  · rw [Bool.not_eq_true] at hs
    rw [setSinglePixel_eq_set v x y s hs]
    have hq : (scanned v x y s).isSeed = false := by
      rw [scanned_isSeed]; exact hs
    refine ⟨hW, hH, ?_, ?_, ?_⟩
    · simpa using hlen
    · intro i
      by_cases hi : (y * v.W + x).toNat = i
      · subst hi
        by_cases hlt : (y * v.W + x).toNat < v.Pixels.length
        · rw [list_getD_set_self _ _ _ _ hlt, hq, ← hseed, hs]
        · rw [list_set_oob _ _ _ (by omega)]
          exact hseed _
      · rw [list_getD_set_ne _ _ _ _ _ hi]
        exact hseed i
    · intro i h0
      by_cases hi : (y * v.W + x).toNat = i
      · subst hi
        rw [hseed _, h0] at hs
        cases hs
      · rw [list_getD_set_ne _ _ _ _ _ hi]
        exact hfix i h0

lemma preservesSeeds_pass (v₀ : VoronoiImage) (w h s : ℤ)
    {v : VoronoiImage} (hv : PreservesSeeds v₀ v) :
    PreservesSeeds v₀ (jumpFloodPass w h v s) := by
  unfold jumpFloodPass
  refine foldl_preserves _ _ ?_ _ _ hv
  intro vy y hvy
  refine foldl_preserves _ _ ?_ _ _ hvy
  intro vx x hvx
  exact preservesSeeds_setSinglePixel v₀ vx _ _ s hvx

lemma preservesSeeds_jffLoop (v₀ : VoronoiImage) (w h : ℤ) :
    ∀ (n : ℕ) (s : ℤ) {v : VoronoiImage}, PreservesSeeds v₀ v →
      PreservesSeeds v₀ (jffLoop w h n s v) := by
  intro n
  induction n with
  | zero => intro s v hv; exact hv
  | succ n ih =>
    intro s v hv
    unfold jffLoop
    split_ifs with hpos
    · exact ih _ (preservesSeeds_pass v₀ w h s hv)
    · exact hv

lemma preservesSeeds_jumpFloodFill (v : VoronoiImage) :
    PreservesSeeds v (JumpFloodFill v).1 := by
  unfold JumpFloodFill
  exact preservesSeeds_jffLoop v v.W v.H _ _ (preservesSeeds_refl v)

lemma At_undef_of_allUndef {v : VoronoiImage} (h : AllUndef v) (a b : ℤ) :
    (v.At a b).isDefined = false := by
  unfold VoronoiImage.At
  split_ifs with h1
  · rfl
  · rcases list_getD_mem_or v.Pixels (b * v.W + a).toNat undefinedPixel with hm | he
    · exact h _ hm
    · rw [he]; rfl

lemma foldl_scan_id {v : VoronoiImage} (x y s : ℤ) (h : AllUndef v) :
    ∀ (l : List (ℤ × ℤ)) (st : VoronoiPixel × ℤ),
      l.foldl (scanNeighbor v x y s) st = st := by
  intro l
  induction l with
  | nil => intro st; rfl
  | cons o l ih =>
    intro st
    rw [List.foldl_cons]
    have hid : scanNeighbor v x y s st o = st := by
      simp only [scanNeighbor]
      rw [if_pos (At_undef_of_allUndef h _ _)]
    rw [hid, ih]

lemma allUndef_setSinglePixel {v : VoronoiImage} (x y s : ℤ)
    (h : AllUndef v) : AllUndef (setSinglePixel v x y s) := by
  by_cases hs : (v.Pixels.getD ((y * v.W + x).toNat) undefinedPixel).isSeed = true
  · rw [setSinglePixel_eq_of_seed v x y s hs]; exact h
  · rw [Bool.not_eq_true] at hs
    rw [setSinglePixel_eq_set v x y s hs]
    intro q hq
    rcases list_mem_set_cases hq with hm | he
    · exact h _ hm
    · rw [he]
      unfold scanned
      rw [foldl_scan_id x y s h]
      rcases list_getD_mem_or v.Pixels ((y * v.W + x).toNat) undefinedPixel with
        hm2 | he2
      · exact h _ hm2
      · rw [he2]; rfl

lemma allUndef_pass (w h s : ℤ) {v : VoronoiImage} (hv : AllUndef v) :
    AllUndef (jumpFloodPass w h v s) := by
  unfold jumpFloodPass
  refine foldl_preserves _ _ ?_ _ _ hv
  intro vy y hvy
  refine foldl_preserves _ _ ?_ _ _ hvy
  intro vx x hvx
  exact allUndef_setSinglePixel _ _ s hvx

lemma allUndef_jffLoop (w h : ℤ) :
    ∀ (n : ℕ) (s : ℤ) {v : VoronoiImage}, AllUndef v →
      AllUndef (jffLoop w h n s v) := by
  intro n
  induction n with
  | zero => intro s v hv; exact hv
  | succ n ih =>
    intro s v hv
    unfold jffLoop
    split_ifs with hpos
    · exact ih _ (allUndef_pass w h s hv)
    · exact hv

/-! ### Claims C6, C7 -/

/-- C6, counterexample: `JumpFloodFill` returns a nil error even for a
0×0 surface and for negative dimensions — there is no `InvalidSurface`
failure path in the code at all. -/
theorem C6_counterexample :
    (JumpFloodFill ⟨0, 0, []⟩).2 = none ∧
    (JumpFloodFill ⟨-3, -3, []⟩).2 = none :=
  ⟨rfl, rfl⟩

/-- C6, amended: `JumpFloodFill` never returns an error — including for
surfaces of non-positive width or height, where its loops simply do
nothing (the `InvalidSurface` validation described by the spec does not
exist in the code); and a surface with no defined cells (in particular
one with no seeds) is not an error either: the fill completes and
propagates the all-undefined result. -/
theorem C6_jumpFlood_no_error :
    (∀ v : VoronoiImage, (JumpFloodFill v).2 = none) ∧
    (∀ v : VoronoiImage, v.Pixels.all (fun p => !p.isDefined) = true →
      (JumpFloodFill v).1.Pixels.all (fun p => !p.isDefined) = true) := by
  constructor
  · intro v; rfl
  · intro v hv
    have h0 : AllUndef v := by
      intro p hp
      have := (List.all_eq_true.mp hv) p hp
      simpa using this
    have h1 : AllUndef (JumpFloodFill v).1 := by
      unfold JumpFloodFill
      exact allUndef_jffLoop v.W v.H _ _ h0
    rw [List.all_eq_true]
    intro p hp
    simpa using h1 p hp

/-- C6, witness for `C6_jumpFlood_no_error` on a seedless 2×1 surface. -/
theorem C6_jumpFlood_no_error_witness :
    (⟨2, 1, [undefinedPixel, undefinedPixel]⟩ : VoronoiImage).Pixels.all
      (fun p => !p.isDefined) = true ∧
    (JumpFloodFill ⟨2, 1, [undefinedPixel, undefinedPixel]⟩).2 = none ∧
    (JumpFloodFill ⟨2, 1, [undefinedPixel, undefinedPixel]⟩).1.Pixels.all
      (fun p => !p.isDefined) = true :=
  ⟨by decide, C6_jumpFlood_no_error.1 _, C6_jumpFlood_no_error.2 _ (by decide)⟩

/-- C7: in every image built by `VoronoiFill`'s initialization, a seed
cell is defined; a single pass and the whole fill leave every seed cell's
fields untouched; and the fill preserves `isSeed ⇒ isDefined` across the
whole surface.  (The length hypothesis restricts to well-formed pixel
grids, on which the Go code's direct slice indexing cannot panic.) -/
theorem C7_seeds_immutable (v : VoronoiImage)
    (_hlen : v.Pixels.length = (v.W * v.H).toNat)
    (hInv : v.Pixels.all (fun p => !p.isSeed || p.isDefined) = true) :
    (∀ stepSize : ℤ, ∀ i : ℕ,
        (v.Pixels.getD i undefinedPixel).isSeed = true →
        (jumpFloodPass v.W v.H v stepSize).Pixels.getD i undefinedPixel
          = v.Pixels.getD i undefinedPixel) ∧
    (∀ i : ℕ, (v.Pixels.getD i undefinedPixel).isSeed = true →
        (JumpFloodFill v).1.Pixels.getD i undefinedPixel
          = v.Pixels.getD i undefinedPixel) ∧
    ((JumpFloodFill v).1.Pixels.all (fun p => !p.isSeed || p.isDefined) = true) ∧
    (∀ (w h : ℤ) (atF : ℤ → ℤ → Color) (isSeedF : ℤ → ℤ → Bool),
        (initialVoronoiPixels w h atF isSeedF).all
          (fun p => !p.isSeed || p.isDefined) = true) := by
  refine ⟨?_, ?_, ?_, ?_⟩
  · intro stepSize i hseed
    exact (preservesSeeds_pass v v.W v.H stepSize
      (preservesSeeds_refl v)).2.2.2.2 i hseed
  · intro i hseed
    exact (preservesSeeds_jumpFloodFill v).2.2.2.2 i hseed
  · obtain ⟨hW, hH, hlen2, hseedeq, hfix⟩ := preservesSeeds_jumpFloodFill v
    rw [List.all_eq_true]
    intro q hq
    rcases List.mem_iff_get.mp hq with ⟨⟨i, hi⟩, hgi⟩
    have hqi : (JumpFloodFill v).1.Pixels.getD i undefinedPixel = q := by
      rw [list_getD_of_lt _ _ _ hi, hgi]
    by_cases hqs : q.isSeed = true
    · have hvs : (v.Pixels.getD i undefinedPixel).isSeed = true := by
        rw [← hseedeq i, hqi, hqs]
      have hfx := hfix i hvs
      have hmem : v.Pixels.getD i undefinedPixel ∈ v.Pixels := by
        rcases list_getD_mem_or v.Pixels i undefinedPixel with hm | he
        · exact hm
        · rw [he] at hvs; cases hvs
      have := (List.all_eq_true.mp hInv) _ hmem
      rw [hfx] at hqi
      rw [hqi] at this
      exact this
    · simp [hqs]
  · intro w h atF isSeedF
    rw [List.all_eq_true]
    intro p hp
    simp only [initialVoronoiPixels, List.mem_flatten, List.mem_map] at hp
    obtain ⟨row, ⟨y, hy, hrow⟩, hprow⟩ := hp
    rw [← hrow] at hprow
    rcases List.mem_map.mp hprow with ⟨x, hx, hpx⟩
    rw [← hpx]
    split_ifs <;> rfl

/-- C7, witness for `C7_seeds_immutable` on a 1×1 all-seed surface. -/
theorem C7_seeds_immutable_witness :
    (⟨1, 1, [⟨true, true, ⟨5, 5, 5, 5⟩, ⟨0, 0⟩⟩]⟩ : VoronoiImage).Pixels.length
      = (((1 : ℤ) * 1).toNat) ∧
    (⟨1, 1, [⟨true, true, ⟨5, 5, 5, 5⟩, ⟨0, 0⟩⟩]⟩ : VoronoiImage).Pixels.all
      (fun p => !p.isSeed || p.isDefined) = true ∧
    (JumpFloodFill ⟨1, 1, [⟨true, true, ⟨5, 5, 5, 5⟩, ⟨0, 0⟩⟩]⟩).1.Pixels.getD 0
        undefinedPixel
      = (⟨1, 1, [⟨true, true, ⟨5, 5, 5, 5⟩, ⟨0, 0⟩⟩]⟩ :
          VoronoiImage).Pixels.getD 0 undefinedPixel :=
  ⟨by decide, by decide,
    (C7_seeds_immutable _ (by decide) (by decide)).2.1 0 (by decide)⟩

/-! ### Claim C5: the rectangle outline walker -/

/-- C5, counterexample: the bottom-right corner (3,3) is a perimeter
pixel of the rectangle (0,0)-(3,3) but is never emitted by the rectangle
walker — every edge walk stops one pixel short of its terminal corner,
and no other edge covers (3,3). -/
theorem C5_counterexample :
    (⟨3, 3⟩ : Pt) ∈ specRectPerimeter33 ∧ (⟨3, 3⟩ : Pt) ∉ rectWalk33 := by
  refine ⟨by decide, by decide⟩

/-- C5, amended: driving the rectangle walker of (0,0)-(3,3) until
`Done()` emits exactly the perimeter pixels of that rectangle except the
bottom-right corner (3,3) (duplicates permitted — (0,0) and (0,3) are
each emitted twice). -/
theorem C5_rect_walk :
    rectWalk33.toFinset = specRectPerimeter33.toFinset \ {(⟨3, 3⟩ : Pt)} := by
  decide

/-! ### Shape simulation and color tracking for the jump flood -/

lemma pshape_eq {p q : VoronoiPixel} :
    pshape p = pshape q ↔
      p.isSeed = q.isSeed ∧ p.isDefined = q.isDefined ∧
      p.seedLocation = q.seedLocation := by
  simp [pshape, Prod.ext_iff]

lemma At_pair {v v' : VoronoiImage} (h : SameShape v v') (a b : ℤ) :
    pshape (v.At a b) = pshape (v'.At a b) := by
  obtain ⟨hW, hH, hlen, hsh⟩ := h
  unfold VoronoiImage.At
  rw [hW, hH]
  split_ifs
  · rfl
  · rw [← hW]
    exact hsh _

lemma scanNeighbor_pair {v v' : VoronoiImage} (x y s : ℤ) (off : ℤ × ℤ)
    (st st' : VoronoiPixel × ℤ)
    (hT : pshape (v.At (x + off.1 * s) (y + off.2 * s))
      = pshape (v'.At (x + off.1 * s) (y + off.2 * s)))
    (hst : pshape st.1 = pshape st'.1) (hd : st.2 = st'.2) :
    pshape (scanNeighbor v x y s st off).1
        = pshape (scanNeighbor v' x y s st' off).1 ∧
      (scanNeighbor v x y s st off).2 = (scanNeighbor v' x y s st' off).2 := by
  rw [pshape_eq] at hT
  obtain ⟨hT1, hT2, hT3⟩ := hT
  have hst' := hst
  rw [pshape_eq] at hst'
  obtain ⟨h1, h2, h3⟩ := hst'
  simp only [scanNeighbor]
  rw [hT2, h2, hT3, hd]
  split_ifs
  · exact ⟨hst, hd⟩
  · refine ⟨?_, rfl⟩
    rw [pshape_eq]
    exact ⟨h1, rfl, rfl⟩
  · exact ⟨hst, hd⟩
  · refine ⟨?_, rfl⟩
    rw [pshape_eq]
    exact ⟨h1, rfl, rfl⟩

lemma foldl_scan_pair {v v' : VoronoiImage} (x y s : ℤ)
    (hAt : ∀ a b : ℤ, pshape (v.At a b) = pshape (v'.At a b)) :
    ∀ (l : List (ℤ × ℤ)) (st st' : VoronoiPixel × ℤ),
      pshape st.1 = pshape st'.1 → st.2 = st'.2 →
      pshape ((l.foldl (scanNeighbor v x y s) st).1)
          = pshape ((l.foldl (scanNeighbor v' x y s) st').1) ∧
        (l.foldl (scanNeighbor v x y s) st).2
          = (l.foldl (scanNeighbor v' x y s) st').2 := by
  intro l
  induction l with
  | nil => intro st st' h1 h2; exact ⟨h1, h2⟩
  | cons o l ih =>
    intro st st' h1 h2
    rw [List.foldl_cons, List.foldl_cons]
    obtain ⟨hh1, hh2⟩ := scanNeighbor_pair x y s o st st' (hAt _ _) h1 h2
    exact ih _ _ hh1 hh2

lemma setSinglePixel_pair {v v' : VoronoiImage} (h : SameShape v v')
    (x y s : ℤ) :
    SameShape (setSinglePixel v x y s) (setSinglePixel v' x y s) := by
  obtain ⟨hW, hH, hlen, hsh⟩ := h
  have hAt : ∀ a b : ℤ, pshape (v.At a b) = pshape (v'.At a b) :=
    At_pair ⟨hW, hH, hlen, hsh⟩
  have hidx : (y * v'.W + x).toNat = (y * v.W + x).toNat := by rw [hW]
  have hp := hsh ((y * v.W + x).toNat)
  have hp' := hp
  rw [pshape_eq] at hp'
  obtain ⟨hp1, hp2, hp3⟩ := hp'
  by_cases hs : (v.Pixels.getD ((y * v.W + x).toNat) undefinedPixel).isSeed = true
  · have hs2 : (v'.Pixels.getD ((y * v'.W + x).toNat) undefinedPixel).isSeed
        = true := by
      rw [hidx, ← hp1]; exact hs
    rw [setSinglePixel_eq_of_seed v x y s hs,
      setSinglePixel_eq_of_seed v' x y s hs2]
    exact ⟨hW, hH, hlen, hsh⟩
  · rw [Bool.not_eq_true] at hs
    have hs2 : (v'.Pixels.getD ((y * v'.W + x).toNat) undefinedPixel).isSeed
        = false := by
      rw [hidx, ← hp1]; exact hs
    rw [setSinglePixel_eq_set v x y s hs, setSinglePixel_eq_set v' x y s hs2]
    have hq : pshape (scanned v x y s) = pshape (scanned v' x y s) := by
      unfold scanned
      rw [hidx]
      refine (foldl_scan_pair x y s hAt _ _ _ hp ?_).1
      rw [hp2, hp3]
    refine ⟨hW, hH, ?_, ?_⟩
    · simpa using hlen
    · intro i
      simp only
      rw [hidx]
      by_cases hi : (y * v.W + x).toNat = i
      · subst hi
        by_cases hlt : (y * v.W + x).toNat < v.Pixels.length
        · rw [list_getD_set_self _ _ _ _ hlt,
            list_getD_set_self _ _ _ _ (by omega)]
          exact hq
        · rw [list_set_oob _ _ _ (by omega), list_set_oob _ _ _ (by omega)]
          exact hsh _
      · rw [list_getD_set_ne _ _ _ _ _ hi, list_getD_set_ne _ _ _ _ _ hi]
        exact hsh i

lemma foldl_rel {α β : Type} (R : β → β → Prop) (f : β → α → β)
    (hf : ∀ b b' a, R b b' → R (f b a) (f b' a)) :
    ∀ (l : List α) (b b' : β), R b b' → R (l.foldl f b) (l.foldl f b') := by
  intro l
  induction l with
  | nil => intro b b' hb; exact hb
  | cons a l ih => intro b b' hb; exact ih _ _ (hf b b' a hb)

lemma sameShape_pass {v v' : VoronoiImage} (w h s : ℤ) (hv : SameShape v v') :
    SameShape (jumpFloodPass w h v s) (jumpFloodPass w h v' s) := by
  unfold jumpFloodPass
  refine foldl_rel _ _ ?_ _ _ _ hv
  intro b b' a hb
  refine foldl_rel _ _ ?_ _ _ _ hb
  intro b2 b2' a2 hb2
  exact setSinglePixel_pair hb2 _ _ s

lemma sameShape_jffLoop (w h : ℤ) :
    ∀ (n : ℕ) (s : ℤ) {v v' : VoronoiImage}, SameShape v v' →
      SameShape (jffLoop w h n s v) (jffLoop w h n s v') := by
  intro n
  induction n with
  | zero => intro s v v' hv; exact hv
  | succ n ih =>
    intro s v v' hv
    unfold jffLoop
    split_ifs with hpos
    · exact ih _ (sameShape_pass w h s hv)
    · exact hv

lemma sameShape_jumpFloodFill {v v' : VoronoiImage} (h : SameShape v v') :
    SameShape (JumpFloodFill v).1 (JumpFloodFill v').1 := by
  have hW := h.1
  have hH := h.2.1
  simp only [JumpFloodFill]
  rw [← hW, ← hH]
  exact sameShape_jffLoop v.W v.H _ _ h

lemma At_colorsFrom {g : Pt → Color} {v : VoronoiImage} (h : ColorsFrom g v)
    (a b : ℤ) : (v.At a b).isDefined = true →
    (v.At a b).color = g ((v.At a b).seedLocation) := by
  unfold VoronoiImage.At
  split_ifs
  · intro hfalse; cases hfalse
  · intro hdef
    rcases list_getD_mem_or v.Pixels ((b * v.W + a).toNat) undefinedPixel with
      hm | he
    · exact h _ hm hdef
    · rw [he] at hdef; cases hdef

lemma scanNeighbor_colorsFrom {g : Pt → Color} {v : VoronoiImage}
    (hv : ColorsFrom g v) (x y s : ℤ) (off : ℤ × ℤ)
    (st : VoronoiPixel × ℤ)
    (hst : st.1.isDefined = true → st.1.color = g st.1.seedLocation) :
    (scanNeighbor v x y s st off).1.isDefined = true →
      (scanNeighbor v x y s st off).1.color
        = g ((scanNeighbor v x y s st off).1.seedLocation) := by
  simp only [scanNeighbor]
  split_ifs with c1 c2 c3
  · exact hst
  · intro _
    exact At_colorsFrom hv _ _ (by simpa using c1)
  · exact hst
  · intro _
    exact At_colorsFrom hv _ _ (by simpa using c1)

lemma foldl_scan_colorsFrom {g : Pt → Color} {v : VoronoiImage}
    (hv : ColorsFrom g v) (x y s : ℤ) :
    ∀ (l : List (ℤ × ℤ)) (st : VoronoiPixel × ℤ),
      (st.1.isDefined = true → st.1.color = g st.1.seedLocation) →
      ((l.foldl (scanNeighbor v x y s) st).1.isDefined = true →
        (l.foldl (scanNeighbor v x y s) st).1.color
          = g ((l.foldl (scanNeighbor v x y s) st).1.seedLocation)) := by
  intro l
  induction l with
  | nil => intro st hst; exact hst
  | cons o l ih =>
    intro st hst
    rw [List.foldl_cons]
    exact ih _ (scanNeighbor_colorsFrom hv x y s o st hst)

lemma colorsFrom_setSinglePixel {g : Pt → Color} {v : VoronoiImage}
    (hv : ColorsFrom g v) (x y s : ℤ) :
    ColorsFrom g (setSinglePixel v x y s) := by
  by_cases hs : (v.Pixels.getD ((y * v.W + x).toNat) undefinedPixel).isSeed = true
  · rw [setSinglePixel_eq_of_seed v x y s hs]; exact hv
  · rw [Bool.not_eq_true] at hs
    rw [setSinglePixel_eq_set v x y s hs]
    intro q hq
    rcases list_mem_set_cases hq with hm | he
    · exact hv _ hm
    · rw [he]
      unfold scanned
      refine foldl_scan_colorsFrom hv x y s _ _ ?_
      intro hdef
      rcases list_getD_mem_or v.Pixels ((y * v.W + x).toNat) undefinedPixel with
        hm2 | he2
      · exact hv _ hm2 hdef
      · rw [he2] at hdef; cases hdef

lemma colorsFrom_pass {g : Pt → Color} (w h s : ℤ) {v : VoronoiImage}
    (hv : ColorsFrom g v) : ColorsFrom g (jumpFloodPass w h v s) := by
  unfold jumpFloodPass
  refine foldl_preserves _ _ ?_ _ _ hv
  intro b a hb
  refine foldl_preserves _ _ ?_ _ _ hb
  intro b2 a2 hb2
  exact colorsFrom_setSinglePixel hb2 _ _ s

lemma colorsFrom_jffLoop {g : Pt → Color} (w h : ℤ) :
    ∀ (n : ℕ) (s : ℤ) {v : VoronoiImage}, ColorsFrom g v →
      ColorsFrom g (jffLoop w h n s v) := by
  intro n
  induction n with
  | zero => intro s v hv; exact hv
  | succ n ih =>
    intro s v hv
    unfold jffLoop
    split_ifs with hpos
    · exact ih _ (colorsFrom_pass w h s hv)
    · exact hv

lemma colorsFrom_jumpFloodFill {g : Pt → Color} {v : VoronoiImage}
    (hv : ColorsFrom g v) : ColorsFrom g (JumpFloodFill v).1 := by
  simp only [JumpFloodFill]
  exact colorsFrom_jffLoop v.W v.H _ _ hv

lemma getD_replicate {α : Type} (a : α) :
    ∀ (n i : ℕ), (List.replicate n a).getD i a = a := by
  intro n
  induction n with
  | zero => intro i; rfl
  | succ n ih =>
    intro i
    cases i with
    | zero => rfl
    | succ i => exact ih i

/-! ### Claim C3: jump flood on a 4×4 grid with one seed -/

/-- C3: after `JumpFloodFill` on a 4×4 grid whose only seed is (0,0)
(carrying an arbitrary color `c`), all 16 cells are defined, refer to
seed location (0,0), and carry the seed's color.  Proved by simulating
the run against a token-colored run (the algorithm's branches never
inspect colors) and by the invariant that a defined cell's color is its
seed's color. -/
theorem C3_single_seed_fill (c : Color) :
    ((JumpFloodFill ⟨4, 4, initialVoronoiPixels 4 4 (fun _ _ => c)
        (fun x y => decide (x = 0 ∧ y = 0))⟩).1.Pixels).length = 16 ∧
    ∀ p ∈ (JumpFloodFill ⟨4, 4, initialVoronoiPixels 4 4 (fun _ _ => c)
        (fun x y => decide (x = 0 ∧ y = 0))⟩).1.Pixels,
      p.isDefined = true ∧ p.seedLocation = ⟨0, 0⟩ ∧ p.color = c := by
  have hinitc : initialVoronoiPixels 4 4 (fun _ _ => c)
      (fun x y => decide (x = 0 ∧ y = 0))
      = (⟨true, true, c, ⟨0, 0⟩⟩ : VoronoiPixel)
          :: List.replicate 15 undefinedPixel := rfl
  have hinit0 : initialVoronoiPixels 4 4 (fun _ _ => (⟨0, 0, 0, 0⟩ : Color))
      (fun x y => decide (x = 0 ∧ y = 0))
      = (⟨true, true, ⟨0, 0, 0, 0⟩, ⟨0, 0⟩⟩ : VoronoiPixel)
          :: List.replicate 15 undefinedPixel := rfl
  have hshape0 : SameShape
      ⟨4, 4, initialVoronoiPixels 4 4 (fun _ _ => c)
        (fun x y => decide (x = 0 ∧ y = 0))⟩
      ⟨4, 4, initialVoronoiPixels 4 4 (fun _ _ => (⟨0, 0, 0, 0⟩ : Color))
        (fun x y => decide (x = 0 ∧ y = 0))⟩ := by
    refine ⟨rfl, rfl, ?_, ?_⟩
    · simp only
      rw [hinitc, hinit0]
      rfl
    · intro i
      simp only
      rw [hinitc, hinit0]
      cases i with
      | zero => rfl
      | succ i =>
        show pshape ((List.replicate 15 undefinedPixel).getD i undefinedPixel)
          = pshape ((List.replicate 15 undefinedPixel).getD i undefinedPixel)
        rfl
  have hshape := sameShape_jumpFloodFill hshape0
  obtain ⟨_, _, hlenEq, hsh⟩ := hshape
  have htokList : (JumpFloodFill ⟨4, 4,
      initialVoronoiPixels 4 4 (fun _ _ => (⟨0, 0, 0, 0⟩ : Color))
        (fun x y => decide (x = 0 ∧ y = 0))⟩).1.Pixels
      = (⟨true, true, ⟨0, 0, 0, 0⟩, ⟨0, 0⟩⟩ : VoronoiPixel)
          :: List.replicate 15
              (⟨false, true, ⟨0, 0, 0, 0⟩, ⟨0, 0⟩⟩ : VoronoiPixel) := by
    decide
  have htok : ∀ i : ℕ, i < 16 →
      (((⟨true, true, ⟨0, 0, 0, 0⟩, ⟨0, 0⟩⟩ : VoronoiPixel)
          :: List.replicate 15
              (⟨false, true, ⟨0, 0, 0, 0⟩, ⟨0, 0⟩⟩ : VoronoiPixel)).getD i
          undefinedPixel).isDefined = true ∧
      (((⟨true, true, ⟨0, 0, 0, 0⟩, ⟨0, 0⟩⟩ : VoronoiPixel)
          :: List.replicate 15
              (⟨false, true, ⟨0, 0, 0, 0⟩, ⟨0, 0⟩⟩ : VoronoiPixel)).getD i
          undefinedPixel).seedLocation = ⟨0, 0⟩ := by
    decide
  have hcolors : ColorsFrom (fun _ => c) (JumpFloodFill ⟨4, 4,
      initialVoronoiPixels 4 4 (fun _ _ => c)
        (fun x y => decide (x = 0 ∧ y = 0))⟩).1 := by
    refine colorsFrom_jumpFloodFill ?_
    intro p hp hdef
    simp only at hp
    rw [hinitc] at hp
    rcases List.mem_cons.mp hp with h1 | h1
    · rw [h1]
    · rw [List.eq_of_mem_replicate h1] at hdef
      cases hdef
  have hlen16 : ((JumpFloodFill ⟨4, 4,
      initialVoronoiPixels 4 4 (fun _ _ => c)
        (fun x y => decide (x = 0 ∧ y = 0))⟩).1.Pixels).length = 16 := by
    rw [hlenEq, htokList]
    rfl
  refine ⟨hlen16, ?_⟩
  intro p hp
  rcases List.mem_iff_get.mp hp with ⟨⟨i, hi⟩, hgi⟩
  have hpi : (JumpFloodFill ⟨4, 4,
      initialVoronoiPixels 4 4 (fun _ _ => c)
        (fun x y => decide (x = 0 ∧ y = 0))⟩).1.Pixels.getD i undefinedPixel
      = p := by
    rw [list_getD_of_lt _ _ _ hi, hgi]
  have hi16 : i < 16 := by
    rw [hlen16] at hi
    exact hi
  have hpsh := hsh i
  rw [hpi, htokList] at hpsh
  rw [pshape_eq] at hpsh
  obtain ⟨hA, hB, hC⟩ := hpsh
  obtain ⟨hd, hl⟩ := htok i hi16
  exact ⟨hB.trans hd, hC.trans hl, hcolors p hp (hB.trans hd)⟩

/-- C3, witness for `C3_single_seed_fill` at a concrete color. -/
theorem C3_single_seed_fill_witness :
    (⟨false, true, ⟨3, 1, 4, 1⟩, ⟨0, 0⟩⟩ : VoronoiPixel)
      ∈ (JumpFloodFill ⟨4, 4, initialVoronoiPixels 4 4 (fun _ _ => ⟨3, 1, 4, 1⟩)
          (fun x y => decide (x = 0 ∧ y = 0))⟩).1.Pixels ∧
    ((⟨false, true, ⟨3, 1, 4, 1⟩, ⟨0, 0⟩⟩ : VoronoiPixel).isDefined = true ∧
      (⟨false, true, ⟨3, 1, 4, 1⟩, ⟨0, 0⟩⟩ : VoronoiPixel).seedLocation = ⟨0, 0⟩ ∧
      (⟨false, true, ⟨3, 1, 4, 1⟩, ⟨0, 0⟩⟩ : VoronoiPixel).color = ⟨3, 1, 4, 1⟩) :=
  ⟨by decide, (C3_single_seed_fill ⟨3, 1, 4, 1⟩).2 _ (by decide)⟩

/-! ### Claim C2: VoronoiFill write-back -/

/-- On validated bounds, `VoronoiFill` succeeds and returns the raster
write-back of the filled grid. -/
lemma voronoiFill_eq (bounds : Rect) (atF : ℤ → ℤ → Color)
    (isSeedF : ℤ → ℤ → Bool)
    (hb : bounds.min.x = 0 ∧ bounds.min.y = 0 ∧
      bounds.max.x > 0 ∧ bounds.max.y > 0) :
    VoronoiFill bounds atF isSeedF
      = some (((List.range bounds.Dy.toNat).map (fun (y : ℕ) =>
          (List.range bounds.Dx.toNat).map (fun (x : ℕ) =>
            ((x : ℤ), (y : ℤ),
              (((JumpFloodFill ⟨bounds.Dx, bounds.Dy,
                  initialVoronoiPixels bounds.Dx bounds.Dy atF isSeedF⟩).1.At
                  (x : ℤ) (y : ℤ)).RGBA))))).flatten) := by
  unfold VoronoiFill
  rw [if_pos hb]
  rfl

/-- C2, counterexample: on a 1×5 surface whose only seed is (0,4), the
cell (0,0) is never reached by the jump-flood passes (known
incompleteness), and the color written back at (0,0) is opaque black
(0,0,0,0xffff) — not the fully transparent color the claim requires. -/
theorem C2_counterexample :
    VoronoiFill ⟨⟨0, 0⟩, ⟨1, 5⟩⟩ (fun _ _ => ⟨9, 9, 9, 65535⟩)
        (fun x y => decide (x = 0 ∧ y = 4))
      = some [(0, 0, ⟨0, 0, 0, 65535⟩), (0, 1, ⟨9, 9, 9, 65535⟩),
              (0, 2, ⟨9, 9, 9, 65535⟩), (0, 3, ⟨9, 9, 9, 65535⟩),
              (0, 4, ⟨9, 9, 9, 65535⟩)] ∧
    ((0, 0, ⟨0, 0, 0, 0⟩) : ℤ × ℤ × Color) ∉
      (VoronoiFill ⟨⟨0, 0⟩, ⟨1, 5⟩⟩ (fun _ _ => ⟨9, 9, 9, 65535⟩)
        (fun x y => decide (x = 0 ∧ y = 4))).getD [] := by
  refine ⟨by decide, by decide⟩

/-- C2, amended: on validated bounds `VoronoiFill` succeeds and writes
back, for every cell of the grid, the resulting cell's color as observed
through `VoronoiPixel.RGBA`; a cell still undefined after the fill is
written as opaque black (0, 0, 0, 0xffff) — alpha 0xffff, not the fully
transparent color. -/
theorem C2_write_back (bounds : Rect) (atF : ℤ → ℤ → Color)
    (isSeedF : ℤ → ℤ → Bool)
    (hb : bounds.min.x = 0 ∧ bounds.min.y = 0 ∧
      bounds.max.x > 0 ∧ bounds.max.y > 0) :
    VoronoiFill bounds atF isSeedF ≠ none ∧
    ∀ x y : ℤ, 0 ≤ x → x < bounds.Dx → 0 ≤ y → y < bounds.Dy →
      (((x, y, (((JumpFloodFill ⟨bounds.Dx, bounds.Dy,
            initialVoronoiPixels bounds.Dx bounds.Dy atF isSeedF⟩).1.At x y).RGBA))
          ∈ (VoronoiFill bounds atF isSeedF).getD []) ∧
       (((JumpFloodFill ⟨bounds.Dx, bounds.Dy,
            initialVoronoiPixels bounds.Dx bounds.Dy atF isSeedF⟩).1.At x y).isDefined
              = false →
          (x, y, (⟨0, 0, 0, 65535⟩ : Color))
            ∈ (VoronoiFill bounds atF isSeedF).getD [])) := by
  rw [voronoiFill_eq bounds atF isSeedF hb]
  refine ⟨by simp, ?_⟩
  intro x y hx0 hxw hy0 hyh
  have hxx : ((x.toNat : ℤ)) = x := Int.toNat_of_nonneg hx0
  have hyy : ((y.toNat : ℤ)) = y := Int.toNat_of_nonneg hy0
  have hmem : (x, y, (((JumpFloodFill ⟨bounds.Dx, bounds.Dy,
      initialVoronoiPixels bounds.Dx bounds.Dy atF isSeedF⟩).1.At x y).RGBA))
      ∈ ((List.range bounds.Dy.toNat).map (fun (y : ℕ) =>
          (List.range bounds.Dx.toNat).map (fun (x : ℕ) =>
            ((x : ℤ), (y : ℤ),
              (((JumpFloodFill ⟨bounds.Dx, bounds.Dy,
                  initialVoronoiPixels bounds.Dx bounds.Dy atF isSeedF⟩).1.At
                  (x : ℤ) (y : ℤ)).RGBA))))).flatten := by
    refine List.mem_flatten.mpr ⟨_,
      List.mem_map.mpr ⟨y.toNat, List.mem_range.mpr (by omega), rfl⟩, ?_⟩
    refine List.mem_map.mpr ⟨x.toNat, List.mem_range.mpr (by omega), ?_⟩
    rw [hxx, hyy]
  refine ⟨hmem, ?_⟩
  intro hundef
  have hrgba : (((JumpFloodFill ⟨bounds.Dx, bounds.Dy,
      initialVoronoiPixels bounds.Dx bounds.Dy atF isSeedF⟩).1.At x y).RGBA)
      = (⟨0, 0, 0, 65535⟩ : Color) := by
    unfold VoronoiPixel.RGBA
    rw [if_pos hundef]
  rw [← hrgba]
  exact hmem

/-- C2, witness for `C2_write_back` on the 1×5 surface with seed (0,4):
cell (0,0) stays undefined and opaque black is among the writes. -/
theorem C2_write_back_witness :
    ((⟨⟨0, 0⟩, ⟨1, 5⟩⟩ : Rect).min.x = 0 ∧ (⟨⟨0, 0⟩, ⟨1, 5⟩⟩ : Rect).min.y = 0 ∧
      (⟨⟨0, 0⟩, ⟨1, 5⟩⟩ : Rect).max.x > 0 ∧ (⟨⟨0, 0⟩, ⟨1, 5⟩⟩ : Rect).max.y > 0) ∧
    VoronoiFill ⟨⟨0, 0⟩, ⟨1, 5⟩⟩ (fun _ _ => ⟨9, 9, 9, 65535⟩)
      (fun x y => decide (x = 0 ∧ y = 4)) ≠ none ∧
    ((0 : ℤ), (0 : ℤ), (⟨0, 0, 0, 65535⟩ : Color)) ∈
      (VoronoiFill ⟨⟨0, 0⟩, ⟨1, 5⟩⟩ (fun _ _ => ⟨9, 9, 9, 65535⟩)
        (fun x y => decide (x = 0 ∧ y = 4))).getD [] :=
  ⟨by decide,
   (C2_write_back _ _ _ (by decide)).1,
   ((C2_write_back _ _ _ (by decide)).2 0 0 (by decide) (by decide)
      (by decide) (by decide)).2 (by decide)⟩

/-! ### Claims C9, C10: composite image bounds and AddImage -/

/-- One `AddImage` call grows the stored bounds by exactly the union
with the layer's translated rectangle. -/
lemma addImage_bounds (c : CompositeImage) (pic : Img) (topLeft : Pt) :
    ((c.AddImage pic topLeft).1).bounds
      = rectUnion c.bounds (specLayerRect pic topLeft) := by
  simp only [CompositeImage.AddImage, rectUnion, specLayerRect, Rect.Dx, Rect.Dy]
  congr 1
  · congr 1 <;> simp [min_def] <;> split_ifs <;> omega
  · congr 1 <;> simp [max_def] <;> split_ifs <;> omega

lemma foldAdd_bounds : ∀ (layers : List (Img × Pt)) (c : CompositeImage),
    (layers.foldl (fun ci ip => (ci.AddImage ip.1 ip.2).1) c).bounds
      = layers.foldl (fun r ip => rectUnion r (specLayerRect ip.1 ip.2))
          c.bounds := by
  intro layers
  induction layers with
  | nil => intro c; rfl
  | cons ip layers ih =>
    intro c
    rw [List.foldl_cons, List.foldl_cons, ih, addImage_bounds]

/-- C9, counterexample: after adding a single 10×10 layer at (5,5), the
stored bounds are (0,0)-(15,15), while the union of all layers'
translated rectangles is (5,5)-(15,15): the initial degenerate
(0,0)-(1,1) rectangle is always absorbed into the bounds, so they are
not the union of the layer rectangles alone. -/
theorem C9_counterexample :
    ((NewCompositeImage.AddImage ⟨goRect 0 0 10 10⟩ ⟨5, 5⟩).1).bounds
      = goRect 0 0 15 15 ∧
    specLayerRect ⟨goRect 0 0 10 10⟩ ⟨5, 5⟩ = goRect 5 5 15 15 ∧
    ((NewCompositeImage.AddImage ⟨goRect 0 0 10 10⟩ ⟨5, 5⟩).1).bounds
      ≠ specLayerRect ⟨goRect 0 0 10 10⟩ ⟨5, 5⟩ := by
  refine ⟨by decide, by decide, by decide⟩

/-- C9, amended: an empty composite has the degenerate 1×1 bound, and
after any sequence of `AddImage` calls the stored bounds equal the union
of the initial (0,0)-(1,1) rectangle with all layers' translated
rectangles (each a top-left placement point extended by the layer's
width and height); `Bounds()` reports that union translated to the
origin.  In particular after adding 10×10 layers at (0,0) and (5,5),
`Bounds()` is (0,0)-(15,15). -/
theorem C9_bounds_union :
    NewCompositeImage.bounds = goRect 0 0 1 1 ∧
    CompositeImage.Bounds NewCompositeImage = goRect 0 0 1 1 ∧
    (∀ layers : List (Img × Pt),
      (layers.foldl (fun ci ip => (ci.AddImage ip.1 ip.2).1)
          NewCompositeImage).bounds
        = layers.foldl (fun r ip => rectUnion r (specLayerRect ip.1 ip.2))
            (goRect 0 0 1 1)) ∧
    CompositeImage.Bounds
        ((((NewCompositeImage.AddImage ⟨goRect 0 0 10 10⟩ ⟨0, 0⟩).1).AddImage
            ⟨goRect 0 0 10 10⟩ ⟨5, 5⟩).1)
      = goRect 0 0 15 15 :=
  ⟨rfl, rfl, fun layers => foldAdd_bounds layers NewCompositeImage, by decide⟩

/-- C10: `AddImage` never fails — the error component of its result is
nil for every composite, layer and placement point. -/
theorem C10_addImage_no_error (c : CompositeImage) (pic : Img) (topLeft : Pt) :
    (c.AddImage pic topLeft).2 = none := rfl

end ImageUtils
